import Mathlib

set_option maxRecDepth 4000

/-!
Shallow embedding of the tutoring-session core of `src/app.js`
(browser Socratic tutor).  JavaScript strings are modelled as `List Char`;
the regular expressions used by the response parser are modelled by
executable leftmost-match scanners that mirror the backtracking behaviour
of the concrete patterns appearing in the source.  DOM / console / network
side effects are outside the model; stateful functions are modelled as
pure functions from the part of `SessionState` they read to the part they
write.
-/

/-- JavaScript whitespace: the character class matched by the regex escape
`\s` and stripped by `String.prototype.trim` (ECMAScript WhiteSpace plus
LineTerminator code points). -/
def isJsWs (c : Char) : Bool :=
  let n := c.toNat
  n = 0x20 || (0x9 ≤ n && n ≤ 0xd) || n = 0xa0 || n = 0x1680 ||
    (0x2000 ≤ n && n ≤ 0x200a) || n = 0x2028 || n = 0x2029 ||
    n = 0x202f || n = 0x205f || n = 0x3000 || n = 0xfeff

/-- JavaScript line terminators: the code points that the regex
metacharacter `.` does not match. -/
def isLineTerm (c : Char) : Bool :=
  let n := c.toNat
  n = 0xa || n = 0xd || n = 0x2028 || n = 0x2029

/-- ASCII case-insensitive character comparison, the equivalence used by a
JavaScript regex with the `i` flag on ASCII pattern characters: equal, or
equal up to the 32-offset between upper and lower case Latin letters. -/
def ciEq (c l : Char) : Bool :=
  c == l || (65 ≤ l.toNat && l.toNat ≤ 90 && c.toNat = l.toNat + 32) ||
    (65 ≤ c.toNat && c.toNat ≤ 90 && l.toNat = c.toNat + 32)

/-- `String.prototype.trim`: drop JavaScript whitespace from both ends. -/
def jsTrim (s : List Char) : List Char :=
  ((s.dropWhile isJsWs).reverse.dropWhile isJsWs).reverse

/-- `parseInt(digits, 10)` on a string of decimal digits. -/
def digitsToNat (ds : List Char) : Nat :=
  ds.foldl (fun a c => 10 * a + (c.toNat - 48)) 0

/-- Match the literal `lit` case-insensitively as a prefix of `u`; on
success return the remainder of `u` after the literal. -/
def dropCI : List Char → List Char → Option (List Char)
  | [], s => some s
  | _ :: _, [] => none
  | l :: ls, c :: cs => if ciEq c l then dropCI ls cs else none

/-- Leftmost-match search: scan the start positions of `s` from the left
and return, for the first position where the prefix-matcher `f` succeeds,
the text before the match, the matcher's payload, and the text after the
match.  This is the search strategy of `String.prototype.match` with a
non-global regex. -/
def findFirst (f : List Char → Option (α × List Char)) :
    List Char → Option (List Char × α × List Char)
  | [] =>
    match f [] with
    | some (b, r) => some ([], b, r)
    | none => none
  | c :: cs =>
    match f (c :: cs) with
    | some (b, r) => some ([], b, r)
    | none =>
      match findFirst f cs with
      | some (pre, b, r) => some (c :: pre, b, r)
      | none => none

/-- Fuel-indexed worker for `removeAll`.  Every pattern used in the source
consumes at least one character per match, so fuel `s.length` is enough. -/
def removeAllAux (f : List Char → Option (α × List Char)) :
    Nat → List Char → List Char
  | 0, s => s
  | fuel + 1, s =>
    match findFirst f s with
    | some (pre, _, r) => pre ++ removeAllAux f fuel r
    | none => s

/-- `String.prototype.replace` with a global regex and empty replacement:
repeatedly delete the leftmost match, resuming the search after it. -/
def removeAll (f : List Char → Option (α × List Char)) (s : List Char) :
    List Char :=
  removeAllAux f s.length s

/-!  Response-parser patterns (src/app.js:887-954).  Each `try…` function
is the prefix matcher of one concrete regex: it succeeds exactly when the
regex matches starting at the first character of its argument, and returns
the captured group together with the remainder after the whole match. -/

/-- Prefix matcher of the score tag regex `\[SCORE:\s*(\d+)\s*\]` with the
`i` flag (src/app.js:894 and the removal at :945).  `\s*` and `\d+` are
deterministic here because whitespace, digits and `]` are disjoint. -/
def tryScoreTag (u : List Char) : Option (List Char × List Char) :=
  match dropCI ("[SCORE:".data) u with
  | none => none
  | some t =>
    let t1 := t.dropWhile isJsWs
    let ds := t1.takeWhile Char.isDigit
    if ds.isEmpty then none
    else
      match (t1.drop ds.length).dropWhile isJsWs with
      | ']' :: r => some (ds, r)
      | _ => none

/-- First score-tag match of a reply, as the parsed integer: the value the
parser stores in `score` (src/app.js:894-896). -/
def scoreValue (s : List Char) : Option Nat :=
  match findFirst tryScoreTag s with
  | some (_, ds, _) => some (digitsToNat ds)
  | none => none

/-- Prefix matcher of a bracketed tag regex `\[LIT\s*([^\]]+)\]` (the
`[CONCEPTS:...]` and `[FEEDBACK:...]` forms, src/app.js:904 and :917).
`\s*` and `[^\]]+` overlap on whitespace, so when everything between the
literal and `]` is whitespace the engine backtracks and the group keeps
the final whitespace character. -/
def tryBracketTag (lit : List Char) (u : List Char) :
    Option (List Char × List Char) :=
  match dropCI lit u with
  | none => none
  | some t =>
    let run := t.takeWhile (fun c => !(c == ']'))
    match t.drop run.length with
    | ']' :: r =>
      if run.isEmpty then none
      else
        let g := run.dropWhile isJsWs
        some ((if g.isEmpty then [run.getLastD ' '] else g), r)
    | _ => none

/-- Prefix matcher of the bracketed removal regex `\[LIT[^\]]*\]` (the
`*`-form used when stripping tags, src/app.js:946-947). -/
def tryBracketRemove (lit : List Char) (u : List Char) :
    Option (Unit × List Char) :=
  match dropCI lit u with
  | none => none
  | some t =>
    match t.drop (t.takeWhile (fun c => !(c == ']'))).length with
    | ']' :: r => some ((), r)
    | _ => none

/-- Lazy `(.+?)` scanning after its first character: stop (minimal match)
as soon as the next character is one of `closers` or the end of input is
reached; fail if a line terminator (unmatched by `.`) is hit first.  When
`consume` is true the closer is part of the match (alternation
`(?:\n|…)`); otherwise it is a lookahead `(?=\n|$)` and stays in the
remainder. -/
def lazyDotTail (closers : List Char) (consume : Bool) :
    List Char → List Char → Option (List Char × List Char)
  | acc, [] => some (acc, [])
  | acc, c :: rest =>
    if closers.contains c then some (acc, if consume then rest else c :: rest)
    else if isLineTerm c then none
    else lazyDotTail closers consume (acc ++ [c]) rest

/-- `(.+?)` must consume at least one character before a closer may end
the match; that character must not be a line terminator. -/
def lazyDotStart (closers : List Char) (consume : Bool) (u : List Char) :
    Option (List Char × List Char) :=
  match u with
  | [] => none
  | c :: rest =>
    if isLineTerm c then none else lazyDotTail closers consume [c] rest

/-- Backtracking of a greedy `\s*` standing before a lazy `(.+?)`: try the
longest whitespace prefix first and give characters back one at a time
until the lazy group can match. -/
def wsBacktrack (closers : List Char) (consume : Bool) (t : List Char) :
    Nat → Option (List Char × List Char)
  | 0 => lazyDotStart closers consume t
  | w + 1 =>
    match lazyDotStart closers consume (t.drop (w + 1)) with
    | some r => some r
    | none => wsBacktrack closers consume t w

/-- Prefix matcher of the fallback tag regexes `LIT\s*(.+?)(?:…)`:
`CONCEPTS:\s*(.+?)(?:\n|\[|$)` (closers `\n` `[`, consuming,
src/app.js:910), `FEEDBACK:\s*(.+?)(?:\n|$)` (closer `\n`, consuming,
src/app.js:922), and the removal forms `LIT\s*.+?(?=\n|$)` (closer `\n`,
lookahead, src/app.js:948-949). -/
def tryFallbackTag (lit closers : List Char) (consume : Bool)
    (u : List Char) : Option (List Char × List Char) :=
  match dropCI lit u with
  | none => none
  | some t => wsBacktrack closers consume t (t.takeWhile isJsWs).length

/-!  Concept-mastery map (`SessionState.conceptMastery`): a JavaScript
object keyed by concept name, modelled as an insertion-ordered association
list, with property assignment keeping the position of an existing key and
appending a new one. -/

inductive MasteryStatus where
  | new
  | low
  | medium
  | high
deriving DecidableEq, Repr

structure MasteryEntry where
  score : Nat
  status : MasteryStatus
deriving DecidableEq, Repr

abbrev Mastery := List (List Char × MasteryEntry)

/-- Property assignment `conceptMastery[name] = entry`: an existing key
keeps its position in the insertion order, a new key is appended. -/
def upsert : Mastery → List Char → MasteryEntry → Mastery
  | [], k, v => [(k, v)]
  | p :: m, k, v => if p.1 = k then (k, v) :: m else p :: upsert m k v

/-- Property read `conceptMastery[name]`. -/
def mlookup : Mastery → List Char → Option MasteryEntry
  | [], _ => none
  | p :: m, k => if p.1 = k then some p.2 else mlookup m k

/-- Status bands of `parseConceptString` (src/app.js:964-967). -/
def conceptStatus (n : Nat) : MasteryStatus :=
  if 70 ≤ n then .high else if 50 ≤ n then .medium
  else if 1 ≤ n then .low else .new

/-- Separator class of the split regex `[,;]+` (src/app.js:957). -/
def isSepChar (c : Char) : Bool := c = ',' || c = ';'

/-- Worker for `splitSeps`; fuel decreases with every consumed character,
so fuel `s.length` makes the fallback case unreachable. -/
def splitSepsGo : Nat → List Char → List Char → List (List Char)
  | _, cur, [] => [cur.reverse]
  | 0, cur, rest => [cur.reverse ++ rest]
  | fuel + 1, cur, c :: rest =>
    if isSepChar c then
      cur.reverse :: splitSepsGo fuel [] (rest.dropWhile isSepChar)
    else splitSepsGo fuel (c :: cur) rest

/-- `conceptStr.split(/[,;]+/)`: split on maximal runs of commas and
semicolons (src/app.js:957). -/
def splitSeps (s : List Char) : List (List Char) := splitSepsGo s.length [] s

/-- The `\s*[=:\-]\s*(\d+)` tail of the concept pair regex, matched as a
prefix of `u`; deterministic because whitespace, the separator set and
digits are pairwise disjoint.  Returns the digit group. -/
def matchSepScore (u : List Char) : Option (List Char) :=
  match u.dropWhile isJsWs with
  | c :: rest =>
    if c = '=' || c = ':' || c = '-' then
      let ds := (rest.dropWhile isJsWs).takeWhile Char.isDigit
      if ds.isEmpty then none else some ds
    else none
  | [] => none

/-- Lazy growth of the `(.+?)` name group of the pair regex
`(.+?)\s*[=:\-]\s*(\d+)` at a fixed start position: extend the group one
character at a time (never across a line terminator) until the separator
tail matches. -/
def tryPairGroup : List Char → List Char → Option (List Char × List Char)
  | _, [] => none
  | acc, c :: rest =>
    if isLineTerm c then none
    else
      match matchSepScore rest with
      | some ds => some (acc ++ [c], ds)
      | none => tryPairGroup (acc ++ [c]) rest

/-- Leftmost match of the concept pair regex `(.+?)\s*[=:\-]\s*(\d+)`
(src/app.js:959): earliest start position, then minimal name group. -/
def findPair : List Char → Option (List Char × List Char)
  | [] => none
  | c :: rest =>
    match tryPairGroup [] (c :: rest) with
    | some r => some r
    | none => findPair rest

/-- `.replace(/^["']|["']$/g, '')` (src/app.js:961): drop one leading and
one trailing quote character. -/
def stripQuotes (l : List Char) : List Char :=
  let l1 :=
    match l with
    | c :: rest => if c = '"' || c = Char.ofNat 39 then rest else l
    | [] => l
  match l1.getLast? with
  | some c => if c = '"' || c = Char.ofNat 39 then l1.dropLast else l1
  | none => l1

/-- `parseConceptString` (src/app.js:956-974): split the payload on
`[,;]+`, match each piece against the pair regex, trim and quote-strip the
name, and upsert the pair when the name is non-empty and the score is in
`[0,100]`; otherwise the pair is discarded. -/
def parseConceptString (m : Mastery) (conceptStr : List Char) : Mastery :=
  (splitSeps conceptStr).foldl
    (fun acc pair =>
      match findPair pair with
      | some (rawName, ds) =>
        let name := stripQuotes (jsTrim rawName)
        let conceptScore := digitsToNat ds
        if name ≠ [] ∧ conceptScore ≤ 100 then
          upsert acc name ⟨conceptScore, conceptStatus conceptScore⟩
        else acc
      | none => acc)
    m

/-- Concepts payload extraction of `parseAndUpdateScore`
(src/app.js:904-915): group of `\[CONCEPTS:\s*([^\]]+)\]`, else of the
fallback `CONCEPTS:\s*(.+?)(?:\n|\[|$)`. -/
def conceptsPayload (response : List Char) : Option (List Char) :=
  match findFirst (tryBracketTag ("[CONCEPTS:".data)) response with
  | some (_, g, _) => some g
  | none =>
    match findFirst (tryFallbackTag ("CONCEPTS:".data) ['\n', '['] true) response with
    | some (_, g, _) => some g
    | none => none

/-- Feedback extraction of `parseAndUpdateScore` (src/app.js:917-927):
group of `\[FEEDBACK:\s*([^\]]+)\]`, else of the fallback
`FEEDBACK:\s*(.+?)(?:\n|$)`; the group is trimmed. -/
def feedbackRaw (response : List Char) : Option (List Char) :=
  match findFirst (tryBracketTag ("[FEEDBACK:".data)) response with
  | some (_, g, _) => some (jsTrim g)
  | none =>
    match findFirst (tryFallbackTag ("FEEDBACK:".data) ['\n'] true) response with
    | some (_, g, _) => some (jsTrim g)
    | none => none

/-- The clean-reply pipeline of `parseAndUpdateScore` (src/app.js:944-950):
global removal of the five tag forms, in source order, then trim. -/
def cleanTags (response : List Char) : List Char :=
  jsTrim
    (removeAll (tryFallbackTag ("FEEDBACK:".data) ['\n'] false)
      (removeAll (tryFallbackTag ("CONCEPTS:".data) ['\n'] false)
        (removeAll (tryBracketRemove ("[FEEDBACK:".data))
          (removeAll (tryBracketRemove ("[CONCEPTS:".data))
            (removeAll tryScoreTag response)))))

/-- Status bands of the auto-generated concept (src/app.js:931): unlike
`parseConceptString` there is no `new` band. -/
def autoStatus (v : Nat) : MasteryStatus :=
  if 70 ≤ v then .high else if 50 ≤ v then .medium else .low

/-- Canned feedback bands (src/app.js:936-941). -/
def autoFeedback (v : Nat) : List Char :=
  if 80 ≤ v then ("Great understanding! Keep pushing deeper.".data)
  else if 60 ≤ v then
    ("Good thinking! You".data) ++ [Char.ofNat 39] ++ ("re on the right track.".data)
  else if 40 ≤ v then
    ("You".data) ++ [Char.ofNat 39] ++ ("re building understanding - keep exploring!".data)
  else
    ("Don".data) ++ [Char.ofNat 39] ++ ("t worry, we".data) ++ [Char.ofNat 39] ++
      ("ll work through this together!".data)

structure ParseResult where
  score : Option Nat
  cleanResponse : List Char
  conceptMastery : Mastery
  feedback : Option (List Char)
  scores : List Nat
deriving DecidableEq, Repr

/-- `parseAndUpdateScore` (src/app.js:887-954) as a pure function of the
session state it reads (`conceptMastery`, `questionCount`, the current
topic's display name, `scoreData.scores`) and the raw model reply.  The
DOM update `updateConceptTracker` and the console logging are outside the
model; the mutations of `SessionState` are returned in the result. -/
def parseAndUpdateScore (conceptMastery : Mastery) (questionCount : Nat)
    (topicName : List Char) (scores : List Nat) (response : List Char) :
    ParseResult :=
  let score := scoreValue response
  let scores1 := match score with
    | some v => scores ++ [v]
    | none => scores
  let mastery1 := match conceptsPayload response with
    | some payload => parseConceptString conceptMastery payload
    | none => conceptMastery
  let feedback0 := feedbackRaw response
  let mastery2 := match score with
    | some v =>
      if mastery1.isEmpty ∧ 1 < questionCount then
        upsert mastery1 (topicName ++ (" basics".data)) ⟨v, autoStatus v⟩
      else mastery1
    | none => mastery1
  let feedback1 := match score, feedback0 with
    | some v, none => some (autoFeedback v)
    | _, fb => fb
  { score := score, cleanResponse := cleanTags response,
    conceptMastery := mastery2, feedback := feedback1, scores := scores1 }

/-!  Adaptive difficulty engine (src/app.js:386-418). -/

inductive Level where
  | easy
  | medium
  | hard
  | challenge
deriving DecidableEq, Repr

/-- `levels.indexOf` over `['easy','medium','hard','challenge']`
(src/app.js:402-403). -/
def levelIdx : Level → Nat
  | .easy => 0
  | .medium => 1
  | .hard => 2
  | .challenge => 3

/-- `levels[i]` for the indices the source can produce. -/
def levelOfIdx : Nat → Level
  | 0 => .easy
  | 1 => .medium
  | 2 => .hard
  | _ => .challenge

structure DiffState where
  difficultyLevel : Level
  consecutiveHighScores : Nat
  consecutiveLowScores : Nat
deriving DecidableEq, Repr

/-- `updateDifficultyLevel` (src/app.js:386-418) as a pure state
transition.  Both level checks read `currentIndex`, computed from the
level before any transition, exactly as in the source. -/
def updateDifficultyLevel (score : Option Nat) (st : DiffState) : DiffState :=
  match score with
  | none => st
  | some sc =>
    let high1 := if 80 ≤ sc then st.consecutiveHighScores + 1 else 0
    let low1 :=
      if 80 ≤ sc then 0
      else if sc < 50 then st.consecutiveLowScores + 1 else 0
    let idx := levelIdx st.difficultyLevel
    let level2 :=
      if 3 ≤ high1 ∧ idx < 3 then levelOfIdx (idx + 1) else st.difficultyLevel
    let high2 := if 3 ≤ high1 ∧ idx < 3 then 0 else high1
    let level3 := if 2 ≤ low1 ∧ 0 < idx then levelOfIdx (idx - 1) else level2
    let low3 := if 2 ≤ low1 ∧ 0 < idx then 0 else low1
    ⟨level3, high2, low3⟩

/-- One difficulty step as a fold function, for score sequences. -/
def runScores (st : DiffState) (scores : List Nat) : DiffState :=
  scores.foldl (fun a s => updateDifficultyLevel (some s) a) st

/-- Single-position matcher for a bare case-insensitive literal, giving an
executable "does `lit` occur case-insensitively in `s`" search. -/
def tryLit (lit : List Char) (u : List Char) : Option (Unit × List Char) :=
  match dropCI lit u with
  | some r => some ((), r)
  | none => none

/-- Case-insensitive substring test (the way a JavaScript regex with the
`i` flag finds a literal anywhere in the input). -/
def ciContains (lit s : List Char) : Bool := (findFirst (tryLit lit) s).isSome

/-!  Curriculum fetcher (src/app.js:54-89). -/

/-- One entry of `curriculum.json`.  The source guards `item.topics &&`
and `item.grades &&` only against missing fields; absent fields are
modelled as empty lists. -/
structure CurriculumItem where
  title : List Char
  content : List Char
  topics : List (List Char)
  grades : List Nat
  isActive : Bool
deriving DecidableEq, Repr

/-- The filter-and-concatenate loop of `fetchRelevantCurriculum`
(src/app.js:66-76): active items matching the topic and grade contribute
a title header line and their content. -/
def combineCurriculum (items : List CurriculumItem) (topicKey : List Char)
    (gradeLevel : Nat) : List Char :=
  items.foldl
    (fun acc it =>
      if it.isActive ∧ topicKey ∈ it.topics ∧ gradeLevel ∈ it.grades then
        acc ++ (("\n--- ").data) ++ it.title ++ ((" ---\n").data) ++
          it.content ++ (("\n").data)
      else acc)
    []

/-- The string appended on truncation (src/app.js:81). -/
def truncationMarker : List Char := ("\n[...truncated]").data

/-- `fetchRelevantCurriculum` (src/app.js:54-89) given the parsed
`curriculum.json` items.  The network-failure paths (missing file, fetch
error) return the empty string and are outside this model. -/
def fetchRelevantCurriculum (items : List CurriculumItem)
    (topicKey : List Char) (gradeLevel : Nat) : List Char :=
  let combinedContent := combineCurriculum items topicKey gradeLevel
  let c2 :=
    if 8000 < combinedContent.length then
      combinedContent.take 8000 ++ truncationMarker
    else combinedContent
  jsTrim c2

/-- A curriculum item with 8100 characters of content, exercising the
truncation branch. -/
def longContentItem : CurriculumItem where
  title := ("T").data
  content := List.replicate 8100 'a'
  topics := [("t").data]
  grades := [6]
  isActive := true

/-!  Session summarizer (src/app.js:798-831). -/

/-- The structured assessment the summarizer returns. -/
structure Assessment where
  strengths : List (List Char)
  areasToImprove : List (List Char)
  nextSteps : List (List Char)
  conceptMastery : List (List Char × Nat)
  overallSummary : List Char
deriving DecidableEq, Repr

/-- The fixed fallback assessment of `generateSessionSummary`
(src/app.js:821-827). -/
def fallbackAssessment (studentName topicName : List Char) : Assessment where
  strengths :=
    [("Participated in the learning session").data,
     ("Showed willingness to explore the topic").data]
  areasToImprove := [("Continue practicing with guided questions").data]
  nextSteps :=
    [("Review the concepts discussed today").data,
     ("Try explaining what you learned to someone else").data]
  conceptMastery := [(("General Understanding").data, 60)]
  overallSummary :=
    studentName ++ (" participated in a tutoring session about ").data ++
      topicName ++
      (". Continue exploring this topic to build deeper understanding.").data

/-- Prefix of `s` up to and including the last closing brace of `s`, when
one exists (the greedy `[\s\S]*\}` tail of the JSON-extraction regex). -/
def lastBrace : List Char → Option (List Char)
  | [] => none
  | c :: rest =>
    match lastBrace rest with
    | some m => some (c :: m)
    | none => if c = Char.ofNat 125 then some [c] else none

/-- Leftmost match of the JSON-extraction regex (src/app.js:814): from the
first opening brace, greedily to the last closing brace after it. -/
def findJsonBlock : List Char → Option (List Char)
  | [] => none
  | c :: rest =>
    if c = Char.ofNat 123 then
      match lastBrace rest with
      | some mid => some (c :: mid)
      | none => findJsonBlock rest
    else findJsonBlock rest

/-- `generateSessionSummary` (src/app.js:798-831) as a function of the raw
summarizer reply.  `JSON.parse` is the external JavaScript builtin,
abstracted as the `jsonParse` parameter (`none` models a thrown
`SyntaxError`); a missing JSON block throws and is caught by the same
`catch`, so both failure paths return the fixed fallback.  The transcript
assembly and the AI call feeding `reply` are outside the model. -/
def generateSessionSummary (jsonParse : List Char → Option Assessment)
    (reply studentName topicName : List Char) : Assessment :=
  match findJsonBlock reply with
  | some block =>
    match jsonParse block with
    | some a => a
    | none => fallbackAssessment studentName topicName
  | none => fallbackAssessment studentName topicName

/-!  Claims C5, C6, C7, C10: the adaptive difficulty engine. -/

/-- C7: calling the adaptive difficulty engine with a `null` score leaves
the difficulty level and both consecutive counters unchanged, for every
starting state (src/app.js:387). -/
theorem C7_null_score_noop : ∀ st : DiffState, updateDifficultyLevel none st = st :=
  fun _ => rfl

/-- C5: per parsed score, a score `≥ 80` zeroes the low counter and (when
no promotion fires) increments the high counter, a score `< 50` zeroes the
high counter and (when no demotion fires) increments the low counter, and
a middling score zeroes both; three consecutive scores `≥ 80` from
`medium` (high counter starting at 0) reach `hard` with the high counter
reset to 0, and two consecutive scores `< 50` from `hard` (low counter
starting at 0) reach `medium` with the low counter reset to 0. -/
theorem C5_transition_rules : ∀ (st : DiffState) (sc : Nat),
    (80 ≤ sc → (updateDifficultyLevel (some sc) st).consecutiveLowScores = 0) ∧
    (80 ≤ sc → st.consecutiveHighScores + 1 < 3 →
      (updateDifficultyLevel (some sc) st).consecutiveHighScores =
        st.consecutiveHighScores + 1) ∧
    (sc < 50 → (updateDifficultyLevel (some sc) st).consecutiveHighScores = 0) ∧
    (sc < 50 → st.consecutiveLowScores + 1 < 2 →
      (updateDifficultyLevel (some sc) st).consecutiveLowScores =
        st.consecutiveLowScores + 1) ∧
    (50 ≤ sc → sc < 80 →
      (updateDifficultyLevel (some sc) st).consecutiveHighScores = 0 ∧
      (updateDifficultyLevel (some sc) st).consecutiveLowScores = 0) ∧
    (∀ a b c, 80 ≤ a → 80 ≤ b → 80 ≤ c → st.difficultyLevel = .medium →
      st.consecutiveHighScores = 0 →
      runScores st [a, b, c] = ⟨.hard, 0, 0⟩) ∧
    (∀ a b, a < 50 → b < 50 → st.difficultyLevel = .hard →
      st.consecutiveLowScores = 0 →
      runScores st [a, b] = ⟨.medium, 0, 0⟩) := by
  intro st sc
  obtain ⟨lvl, hi, lo⟩ := st
  refine ⟨?_, ?_, ?_, ?_, ?_, ?_, ?_⟩
  · intro h
    cases lvl <;> simp [updateDifficultyLevel, levelIdx, h] <;> split_ifs <;> omega
  · intro h hcnt
    dsimp only at hcnt
    cases lvl <;> simp [updateDifficultyLevel, levelIdx, h] <;> (try split_ifs) <;> omega
  · intro h
    have h80 : ¬ (80 ≤ sc) := by omega
    cases lvl <;> simp [updateDifficultyLevel, levelIdx, h, h80] <;> split_ifs <;> omega
  · intro h hcnt
    dsimp only at hcnt
    have h80 : ¬ (80 ≤ sc) := by omega
    cases lvl <;> simp [updateDifficultyLevel, levelIdx, h, h80] <;> (try split_ifs) <;> omega
  · intro h1 h2
    have h80 : ¬ (80 ≤ sc) := by omega
    have h50 : ¬ (sc < 50) := by omega
    cases lvl <;> simp [updateDifficultyLevel, levelIdx, h80, h50]
  · intro a b c ha hb hc hlvl hhi
    simp only at hlvl hhi
    subst hlvl hhi
    have e1 : updateDifficultyLevel (some a) ⟨.medium, 0, lo⟩ = ⟨.medium, 1, 0⟩ := by
      simp [updateDifficultyLevel, levelIdx, ha]
    have e2 : updateDifficultyLevel (some b) ⟨.medium, 1, 0⟩ = ⟨.medium, 2, 0⟩ := by
      simp [updateDifficultyLevel, levelIdx, hb]
    have e3 : updateDifficultyLevel (some c) ⟨.medium, 2, 0⟩ = ⟨.hard, 0, 0⟩ := by
      simp [updateDifficultyLevel, levelIdx, levelOfIdx, hc]
    simp [runScores, e1, e2, e3]
  · intro a b ha hb hlvl hlo
    simp only at hlvl hlo
    subst hlvl hlo
    have ha80 : ¬ (80 ≤ a) := by omega
    have hb80 : ¬ (80 ≤ b) := by omega
    have e1 : updateDifficultyLevel (some a) ⟨.hard, hi, 0⟩ = ⟨.hard, 0, 1⟩ := by
      simp [updateDifficultyLevel, levelIdx, ha, ha80]
    have e2 : updateDifficultyLevel (some b) ⟨.hard, 0, 1⟩ = ⟨.medium, 0, 0⟩ := by
      simp [updateDifficultyLevel, levelIdx, levelOfIdx, hb, hb80]
    simp [runScores, e1, e2]

/-- Witness for C5 at concrete inputs. -/
theorem C5_transition_rules_witness :
    runScores ⟨.medium, 0, 5⟩ [85, 90, 95] = ⟨.hard, 0, 0⟩ ∧
    runScores ⟨.hard, 7, 0⟩ [10, 40] = ⟨.medium, 0, 0⟩ ∧
    (updateDifficultyLevel (some 60) ⟨.easy, 4, 9⟩).consecutiveHighScores = 0 ∧
    (updateDifficultyLevel (some 60) ⟨.easy, 4, 9⟩).consecutiveLowScores = 0 :=
  ⟨(C5_transition_rules ⟨.medium, 0, 5⟩ 0).2.2.2.2.2.1 85 90 95
      (by decide) (by decide) (by decide) rfl rfl,
   (C5_transition_rules ⟨.hard, 7, 0⟩ 0).2.2.2.2.2.2 10 40
      (by decide) (by decide) rfl rfl,
   ((C5_transition_rules ⟨.easy, 4, 9⟩ 60).2.2.2.2.1 (by decide) (by decide)).1,
   ((C5_transition_rules ⟨.easy, 4, 9⟩ 60).2.2.2.2.1 (by decide) (by decide)).2⟩

/-- At `challenge`, a high score leaves the level at `challenge`. -/
theorem upd_challenge_fixed (st : DiffState) (s : Nat) (h80 : 80 ≤ s)
    (hl : st.difficultyLevel = .challenge) :
    (updateDifficultyLevel (some s) st).difficultyLevel = .challenge := by
  obtain ⟨lvl, hi, lo⟩ := st
  simp only at hl
  subst hl
  simp [updateDifficultyLevel, levelIdx, h80]

/-- At `easy`, a low score leaves the level at `easy`. -/
theorem upd_easy_fixed (st : DiffState) (s : Nat) (h50 : s < 50)
    (hl : st.difficultyLevel = .easy) :
    (updateDifficultyLevel (some s) st).difficultyLevel = .easy := by
  obtain ⟨lvl, hi, lo⟩ := st
  simp only at hl
  subst hl
  have h80 : ¬ (80 ≤ s) := by omega
  simp [updateDifficultyLevel, levelIdx, h50, h80] <;> split_ifs <;> simp

/-- C6: the level never moves past the extremes — from `challenge`, any
sequence of qualifying high scores (each `≥ 80`) leaves the level at
`challenge`, and from `easy`, any sequence of qualifying low scores (each
`< 50`) leaves the level at `easy` (src/app.js:402-415). -/
theorem C6_level_bounds : ∀ (st : DiffState) (scores : List Nat),
    (st.difficultyLevel = .challenge → (∀ s ∈ scores, 80 ≤ s) →
      (runScores st scores).difficultyLevel = .challenge) ∧
    (st.difficultyLevel = .easy → (∀ s ∈ scores, s < 50) →
      (runScores st scores).difficultyLevel = .easy) := by
  intro st scores
  induction scores generalizing st with
  | nil => exact ⟨fun h _ => h, fun h _ => h⟩
  | cons s rest ih =>
    constructor
    · intro hl hall
      have hs : 80 ≤ s := hall s (by simp)
      have step := upd_challenge_fixed st s hs hl
      have : runScores st (s :: rest) =
          runScores (updateDifficultyLevel (some s) st) rest := rfl
      rw [this]
      exact (ih _).1 step (fun x hx => hall x (by simp [hx]))
    · intro hl hall
      have hs : s < 50 := hall s (by simp)
      have step := upd_easy_fixed st s hs hl
      have : runScores st (s :: rest) =
          runScores (updateDifficultyLevel (some s) st) rest := rfl
      rw [this]
      exact (ih _).2 step (fun x hx => hall x (by simp [hx]))

/-- Witness for C6 at concrete inputs. -/
theorem C6_level_bounds_witness :
    (runScores ⟨.challenge, 0, 0⟩ [85, 95, 100, 99]).difficultyLevel = .challenge ∧
    (runScores ⟨.easy, 0, 0⟩ [0, 10, 49, 3]).difficultyLevel = .easy :=
  ⟨(C6_level_bounds ⟨.challenge, 0, 0⟩ [85, 95, 100, 99]).1 rfl (by decide),
   (C6_level_bounds ⟨.easy, 0, 0⟩ [0, 10, 49, 3]).2 rfl (by decide)⟩

/-- C10: after a single step on a non-null score, at least one of the two
consecutive counters is zero, and the level index moves by at most one
(the two level checks cannot both fire, since the counter update zeroes at
least one counter). -/
theorem C10_single_step_invariants : ∀ (st : DiffState) (sc : Nat),
    ((updateDifficultyLevel (some sc) st).consecutiveHighScores = 0 ∨
      (updateDifficultyLevel (some sc) st).consecutiveLowScores = 0) ∧
    (levelIdx (updateDifficultyLevel (some sc) st).difficultyLevel =
        levelIdx st.difficultyLevel ∨
      levelIdx (updateDifficultyLevel (some sc) st).difficultyLevel =
        levelIdx st.difficultyLevel + 1 ∨
      levelIdx (updateDifficultyLevel (some sc) st).difficultyLevel + 1 =
        levelIdx st.difficultyLevel) := by
  intro st sc
  obtain ⟨lvl, hi, lo⟩ := st
  by_cases h80 : 80 ≤ sc
  · cases lvl <;>
      simp [updateDifficultyLevel, levelIdx, levelOfIdx, h80] <;> split_ifs <;>
      simp [levelIdx] <;> omega
  · by_cases h50 : sc < 50
    · cases lvl <;>
        simp [updateDifficultyLevel, levelIdx, levelOfIdx, h80, h50] <;> split_ifs <;>
        simp [levelIdx] <;> omega
    · cases lvl <;>
        simp [updateDifficultyLevel, levelIdx, levelOfIdx, h80, h50]

/-!  Lookup lemmas for the concept-mastery map. -/

/-- Looking up the upserted key yields the new entry. -/
theorem mlookup_upsert_self (m : Mastery) (k : List Char) (v : MasteryEntry) :
    mlookup (upsert m k v) k = some v := by
  induction m with
  | nil => simp [upsert, mlookup]
  | cons p m ih =>
    by_cases hp : p.1 = k
    · simp [upsert, mlookup, hp]
    · simp [upsert, mlookup, hp, ih]

/-- Looking up a different key is unaffected by an upsert. -/
theorem mlookup_upsert_other (m : Mastery) (k k' : List Char)
    (v : MasteryEntry) (h : k' ≠ k) :
    mlookup (upsert m k v) k' = mlookup m k' := by
  have hk : k ≠ k' := fun hh => h hh.symm
  induction m with
  | nil => simp [upsert, mlookup, hk]
  | cons p m ih =>
    by_cases hp : p.1 = k
    · have hp' : p.1 ≠ k' := by rw [hp]; exact hk
      simp [upsert, mlookup, hp, hk, hp']
    · simp [upsert, mlookup, hp, ih]

/-- Any entry found after an upsert is the upserted entry or was already
present. -/
theorem mlookup_upsert_cases (m : Mastery) (k k' : List Char)
    (v e : MasteryEntry) (h : mlookup (upsert m k v) k' = some e) :
    e = v ∨ mlookup m k' = some e := by
  by_cases hk : k' = k
  · subst hk
    rw [mlookup_upsert_self] at h
    exact Or.inl (Option.some_injective _ h).symm
  · rw [mlookup_upsert_other m k k' v hk] at h
    exact Or.inr h

/-- Every entry written by `parseConceptString` carries a score in
`[0,100]` and the status band of that score; other entries are untouched. -/
theorem parseConceptString_bands (m : Mastery) (payload k : List Char)
    (e : MasteryEntry)
    (h : mlookup (parseConceptString m payload) k = some e) :
    mlookup m k = some e ∨ (e.score ≤ 100 ∧ e.status = conceptStatus e.score) := by
  unfold parseConceptString at h
  generalize hps : splitSeps payload = ps at h
  clear hps
  induction ps generalizing m with
  | nil => exact Or.inl h
  | cons p ps ih =>
    rw [List.foldl_cons] at h
    rcases ih _ h with h' | good
    · cases hfp : findPair p with
      | none => rw [hfp] at h'; exact Or.inl h'
      | some pr =>
        obtain ⟨rawName, ds⟩ := pr
        rw [hfp] at h'
        dsimp only at h'
        by_cases hcond :
            stripQuotes (jsTrim rawName) ≠ [] ∧ digitsToNat ds ≤ 100
        · rw [if_pos hcond] at h'
          rcases mlookup_upsert_cases _ _ _ _ _ h' with he | hm
          · subst he
            exact Or.inr ⟨hcond.2, rfl⟩
          · exact Or.inl hm
        · rw [if_neg hcond] at h'
          exact Or.inl h'
    · exact Or.inr good

/-- C4: the pair `"gravity basics=55"` upserts
`{score := 55, status := medium}` under the key `"gravity basics"`; the
out-of-range pair `"x=150"` is discarded entirely (the map is returned
unchanged); and every entry `parseConceptString` writes has its status
band determined by its score — `high` at 70+, `medium` at 50+, `low` at
1+, `new` at 0 (src/app.js:956-974). -/
theorem C4_concept_pairs :
    (∀ m : Mastery,
      mlookup (parseConceptString m (("gravity basics=55").data))
        (("gravity basics").data) = some ⟨55, .medium⟩) ∧
    (∀ m : Mastery, parseConceptString m (("x=150").data) = m) ∧
    (∀ (m : Mastery) (payload k : List Char) (e : MasteryEntry),
      mlookup (parseConceptString m payload) k = some e →
      mlookup m k = some e ∨
        (e.score ≤ 100 ∧ e.status = conceptStatus e.score)) := by
  refine ⟨?_, ?_, parseConceptString_bands⟩
  · intro m
    have : parseConceptString m (("gravity basics=55").data) =
        upsert m (("gravity basics").data) ⟨55, .medium⟩ := rfl
    rw [this, mlookup_upsert_self]
  · intro m
    rfl

/-- Witness for C4 at a concrete accepted pair. -/
theorem C4_concept_pairs_witness :
    mlookup ([] : Mastery) (("q").data) = some ⟨80, MasteryStatus.high⟩ ∨
      ((⟨80, MasteryStatus.high⟩ : MasteryEntry).score ≤ 100 ∧
        (⟨80, MasteryStatus.high⟩ : MasteryEntry).status = conceptStatus 80) :=
  C4_concept_pairs.2.2 [] (("q=80").data) (("q").data) ⟨80, .high⟩ (by decide)

/-- C2 counterexample: the reply `[SCORE:150]` carries an out-of-range
value, yet the parser returns `score = 150` — not `null`
(src/app.js:894-896 performs no range check). -/
theorem C2_out_of_range_counterexample :
    (parseAndUpdateScore [] 1 [] [] (("[SCORE:150]").data)).score = some 150 := by
  decide

/-- C2 amended: a score tag whose integer exceeds 100 is neither rejected
nor clamped — the parser returns the out-of-range integer as the score. -/
theorem C2_out_of_range_accepted (m : Mastery) (qc : Nat)
    (topic : List Char) (scores : List Nat) (resp : List Char) (v : Nat)
    (h : scoreValue resp = some v) (hv : 100 < v) :
    (parseAndUpdateScore m qc topic scores resp).score = some v := by
  have hs : (parseAndUpdateScore m qc topic scores resp).score =
      scoreValue resp := rfl
  rw [hs, h]

/-- Witness for the amended C2 at the concrete out-of-range reply. -/
theorem C2_out_of_range_accepted_witness :
    (parseAndUpdateScore [] 3 (("T").data) [] (("ok [SCORE: 250 ] end").data)).score =
      some 250 :=
  C2_out_of_range_accepted [] 3 (("T").data) [] (("ok [SCORE: 250 ] end").data)
    250 (by decide) (by decide)

/-!  Decomposition lemmas for the pattern matchers, used to reason about
tag removal in the clean-reply pipeline. -/

/-- A successful case-insensitive literal match splits its input. -/
theorem dropCI_decomp : ∀ (lit u t : List Char),
    dropCI lit u = some t → ∃ w, u = w ++ t := by
  intro lit
  induction lit with
  | nil =>
    intro u t h
    simp only [dropCI, Option.some.injEq] at h
    exact ⟨[], by rw [h]; rfl⟩
  | cons l ls ih =>
    intro u t h
    cases u with
    | nil => simp [dropCI] at h
    | cons c cs =>
      by_cases hc : ciEq c l = true
      · rw [dropCI, if_pos hc] at h
        obtain ⟨w, hw⟩ := ih cs t h
        exact ⟨c :: w, by rw [hw]; rfl⟩
      · rw [dropCI, if_neg hc] at h
        exact absurd h (by simp)

/-- A successful match of a literal beginning with a given character
exposes that the input starts with a case-equivalent character. -/
theorem dropCI_cons_head : ∀ (l : Char) (ls u t : List Char),
    dropCI (l :: ls) u = some t →
    ∃ c cs, u = c :: cs ∧ ciEq c l = true ∧ dropCI ls cs = some t := by
  intro l ls u t h
  cases u with
  | nil => simp [dropCI] at h
  | cons c cs =>
    by_cases hc : ciEq c l = true
    · rw [dropCI, if_pos hc] at h
      exact ⟨c, cs, rfl, hc, h⟩
    · rw [dropCI, if_neg hc] at h
      exact absurd h (by simp)

/-- The only character case-insensitively equal to `[` is `[` itself
(case folding only moves letters). -/
theorem ciEq_lbracket (c : Char) (h : ciEq c '[' = true) : c = '[' := by
  have hb : ('[').toNat = 91 := rfl
  unfold ciEq at h
  simp only [Bool.or_eq_true, Bool.and_eq_true, beq_iff_eq,
    decide_eq_true_eq] at h
  rcases h with (h | h) | h
  · exact h
  · rw [hb] at h
    omega
  · rw [hb] at h
    omega

/-- If the matcher fails at every start position, the leftmost-match
search fails. -/
theorem findFirst_none_of (f : List Char → Option (α × List Char)) :
    ∀ s : List Char, (∀ i, f (s.drop i) = none) → findFirst f s = none := by
  intro s
  induction s with
  | nil =>
    intro h
    have h0 := h 0
    simp only [List.drop_nil] at h0
    simp [findFirst, h0]
  | cons c cs ih =>
    intro h
    have h0 := h 0
    simp only [List.drop_zero] at h0
    have ht := ih (fun i => by
      have := h (i + 1)
      simpa [List.drop_succ_cons] using this)
    simp [findFirst, h0, ht]

/-- A successful leftmost-match search came from some start position. -/
theorem findFirst_some_exists (f : List Char → Option (α × List Char)) :
    ∀ (s pre : List Char) (b : α) (r : List Char),
      findFirst f s = some (pre, b, r) → ∃ i, f (s.drop i) = some (b, r) := by
  intro s
  induction s with
  | nil =>
    intro pre b r h
    simp only [findFirst] at h
    split at h
    · rename_i b' r' heq
      simp only [Option.some.injEq, Prod.mk.injEq] at h
      exact ⟨0, by rw [List.drop_nil, heq, h.2.1, h.2.2]⟩
    · exact absurd h (by simp)
  | cons c cs ih =>
    intro pre b r h
    simp only [findFirst] at h
    split at h
    · rename_i b' r' heq
      simp only [Option.some.injEq, Prod.mk.injEq] at h
      exact ⟨0, by rw [List.drop_zero, heq, h.2.1, h.2.2]⟩
    · split at h
      · rename_i pre' b' r' heq2
        simp only [Option.some.injEq, Prod.mk.injEq] at h
        obtain ⟨i, hi⟩ := ih pre' b' r' heq2
        exact ⟨i + 1, by rw [List.drop_succ_cons, hi, h.2.1, h.2.2]⟩
      · exact absurd h (by simp)

/-- A match at any start position makes the leftmost-match search
succeed. -/
theorem findFirst_isSome_of (f : List Char → Option (α × List Char)) :
    ∀ (s : List Char) (i : Nat) (x : α × List Char),
      f (s.drop i) = some x → (findFirst f s).isSome := by
  intro s
  induction s with
  | nil =>
    intro i x h
    rw [List.drop_nil] at h
    obtain ⟨b, r⟩ := x
    simp [findFirst, h]
  | cons c cs ih =>
    intro i x h
    cases i with
    | zero =>
      rw [List.drop_zero] at h
      obtain ⟨b, r⟩ := x
      simp [findFirst, h]
    | succ j =>
      rw [List.drop_succ_cons] at h
      cases hf : f (c :: cs) with
      | some y =>
        obtain ⟨b, r⟩ := y
        simp [findFirst, hf]
      | none =>
        have hs := ih j x h
        rw [Option.isSome_iff_exists] at hs
        obtain ⟨⟨pre, b, r⟩, hy⟩ := hs
        simp [findFirst, hf, hy]

/-- Leftmost-match decomposition: the input splits into the text before
the match, the matched characters, and the remainder, where the matched
characters satisfy any property the matcher guarantees. -/
theorem findFirst_decompP (f : List Char → Option (α × List Char))
    (P : List Char → Prop)
    (hf : ∀ u (b : α) (r : List Char), f u = some (b, r) → ∃ mid, u = mid ++ r ∧ P mid) :
    ∀ (s pre : List Char) (b : α) (r : List Char),
      findFirst f s = some (pre, b, r) → ∃ mid, s = pre ++ (mid ++ r) ∧ P mid := by
  intro s
  induction s with
  | nil =>
    intro pre b r h
    simp only [findFirst] at h
    split at h
    · rename_i b' r' heq
      simp only [Option.some.injEq, Prod.mk.injEq] at h
      obtain ⟨hpre, hb, hr⟩ := h
      subst hpre
      rw [hb, hr] at heq
      obtain ⟨mid, hm, hp⟩ := hf [] b r heq
      exact ⟨mid, by simpa using hm, hp⟩
    · exact absurd h (by simp)
  | cons c cs ih =>
    intro pre b r h
    simp only [findFirst] at h
    split at h
    · rename_i b' r' heq
      simp only [Option.some.injEq, Prod.mk.injEq] at h
      obtain ⟨hpre, hb, hr⟩ := h
      subst hpre
      rw [hb, hr] at heq
      obtain ⟨mid, hm, hp⟩ := hf (c :: cs) b r heq
      exact ⟨mid, by simpa using hm, hp⟩
    · split at h
      · rename_i pre' b' r' heq2
        simp only [Option.some.injEq, Prod.mk.injEq] at h
        obtain ⟨hpre, hb, hr⟩ := h
        rw [hb, hr] at heq2
        obtain ⟨mid, hm, hp⟩ := ih pre' b r heq2
        exact ⟨mid, by rw [← hpre, hm]; rfl, hp⟩
      · exact absurd h (by simp)

/-- If the search fails, global removal is the identity. -/
theorem removeAll_eq_of_none (f : List Char → Option (α × List Char))
    (s : List Char) (h : findFirst f s = none) : removeAll f s = s := by
  unfold removeAll
  cases hl : s.length with
  | zero => rfl
  | succ n => rw [removeAllAux, h]

/-- The remainder returned by the lazy-dot scanner is a suffix of the
scanned text. -/
theorem lazyDotTail_suffix (closers : List Char) (consume : Bool) :
    ∀ (g acc out r : List Char),
      lazyDotTail closers consume acc g = some (out, r) → r <:+ g := by
  intro g
  induction g with
  | nil =>
    intro acc out r h
    simp only [lazyDotTail, Option.some.injEq, Prod.mk.injEq] at h
    rw [← h.2]
  | cons c gs ih =>
    intro acc out r h
    simp only [lazyDotTail] at h
    by_cases hcl : closers.contains c = true
    · rw [if_pos hcl] at h
      simp only [Option.some.injEq, Prod.mk.injEq] at h
      rw [← h.2]
      cases consume
      · exact List.suffix_refl _
      · exact List.suffix_cons c gs
    · rw [if_neg hcl] at h
      by_cases hlt : isLineTerm c = true
      · rw [if_pos hlt] at h
        exact absurd h (by simp)
      · rw [if_neg hlt] at h
        exact (ih _ out r h).trans (List.suffix_cons c gs)

theorem lazyDotStart_suffix (closers : List Char) (consume : Bool)
    (u out r : List Char) (h : lazyDotStart closers consume u = some (out, r)) :
    r <:+ u := by
  cases u with
  | nil => simp [lazyDotStart] at h
  | cons c rest =>
    simp only [lazyDotStart] at h
    split_ifs at h
    exact (lazyDotTail_suffix closers consume rest [c] out r h).trans
      (List.suffix_cons c rest)

theorem wsBacktrack_suffix (closers : List Char) (consume : Bool)
    (t : List Char) : ∀ (w : Nat) (out r : List Char),
      wsBacktrack closers consume t w = some (out, r) → r <:+ t := by
  intro w
  induction w with
  | zero =>
    intro out r h
    rw [wsBacktrack] at h
    exact lazyDotStart_suffix closers consume t out r h
  | succ n ih =>
    intro out r h
    rw [wsBacktrack] at h
    cases hs : lazyDotStart closers consume (t.drop (n + 1)) with
    | some x =>
      rw [hs] at h
      obtain ⟨out', r'⟩ := x
      simp only [Option.some.injEq, Prod.mk.injEq] at h
      rw [← h.2]
      exact (lazyDotStart_suffix closers consume _ out' r' hs).trans
        (List.drop_suffix (n + 1) t)
    | none =>
      rw [hs] at h
      exact ih out r h

/-- The remainder returned by a fallback-tag matcher is a suffix. -/
theorem tryFallbackTag_suffix (lit closers : List Char) (consume : Bool)
    (u out r : List Char) (h : tryFallbackTag lit closers consume u = some (out, r)) :
    r <:+ u := by
  unfold tryFallbackTag at h
  cases hd : dropCI lit u with
  | none => rw [hd] at h; exact absurd h (by simp)
  | some t =>
    rw [hd] at h
    obtain ⟨w, hw⟩ := dropCI_decomp lit u t hd
    exact (wsBacktrack_suffix closers consume t _ out r h).trans
      ⟨w, hw.symm⟩

/-- A successful fallback-tag match begins with its literal. -/
theorem tryFallbackTag_litSome (lit closers : List Char) (consume : Bool)
    (u : List Char) (x : List Char × List Char)
    (h : tryFallbackTag lit closers consume u = some x) :
    (dropCI lit u).isSome := by
  unfold tryFallbackTag at h
  cases hd : dropCI lit u with
  | none => rw [hd] at h; exact absurd h (by simp)
  | some t => simp

/-- A successful bracketed-tag match begins with its literal. -/
theorem tryBracketTag_litSome (lit : List Char) (u : List Char)
    (x : List Char × List Char) (h : tryBracketTag lit u = some x) :
    (dropCI lit u).isSome := by
  unfold tryBracketTag at h
  cases hd : dropCI lit u with
  | none => rw [hd] at h; exact absurd h (by simp)
  | some t => simp

/-- A successful bracketed-removal match begins with its literal. -/
theorem tryBracketRemove_litSome (lit : List Char) (u : List Char)
    (x : Unit × List Char) (h : tryBracketRemove lit u = some x) :
    (dropCI lit u).isSome := by
  unfold tryBracketRemove at h
  cases hd : dropCI lit u with
  | none => rw [hd] at h; exact absurd h (by simp)
  | some t => simp

/-- Remainder of a bracketed-removal match, as a split of the input with a
leading `[` when the literal starts with `[`. -/
theorem tryBracketRemove_decomp (lit' u r : List Char)
    (h : tryBracketRemove ('[' :: lit') u = some ((), r)) :
    ∃ x, u = '[' :: (x ++ r) := by
  unfold tryBracketRemove at h
  cases hd : dropCI ('[' :: lit') u with
  | none => rw [hd] at h; exact absurd h (by simp)
  | some t =>
    rw [hd] at h
    dsimp only at h
    obtain ⟨c, cs, hu, hci, hrest⟩ := dropCI_cons_head '[' lit' u t hd
    have hc : c = '[' := ciEq_lbracket c hci
    obtain ⟨w, hw⟩ := dropCI_decomp lit' cs t hrest
    split at h
    · rename_i r' hm
      simp only [Option.some.injEq, Prod.mk.injEq] at h
      have hsuf : (']' :: r') <:+ t := by
        rw [← hm]
        exact List.drop_suffix _ t
      obtain ⟨y, hy⟩ := hsuf
      refine ⟨w ++ y ++ [']'], ?_⟩
      rw [hu, hc, hw, ← hy, h.2]
      simp
    · exact absurd h (by simp)

/-- Remainder of a score-tag match, as a split of the input with a leading
`[`. -/
theorem tryScoreTag_decomp (u ds r : List Char)
    (h : tryScoreTag u = some (ds, r)) : ∃ x, u = '[' :: (x ++ r) := by
  unfold tryScoreTag at h
  cases hd : dropCI (("[SCORE:").data) u with
  | none => rw [hd] at h; exact absurd h (by simp)
  | some t =>
    rw [hd] at h
    dsimp only at h
    have hlit : (("[SCORE:").data) = '[' :: (("SCORE:").data) := rfl
    rw [hlit] at hd
    obtain ⟨c, cs, hu, hci, hrest⟩ := dropCI_cons_head '[' _ u t hd
    have hc : c = '[' := ciEq_lbracket c hci
    obtain ⟨w, hw⟩ := dropCI_decomp _ cs t hrest
    split at h
    · exact absurd h (by simp)
    · split at h
      · rename_i r' hm
        simp only [Option.some.injEq, Prod.mk.injEq] at h
        have hsuf : (']' :: r') <:+ t := by
          rw [← hm]
          exact (List.dropWhile_suffix _).trans
            ((List.drop_suffix _ _).trans (List.dropWhile_suffix _))
        obtain ⟨y, hy⟩ := hsuf
        refine ⟨w ++ y ++ [']'], ?_⟩
        rw [hu, hc, hw, ← hy, h.2]
        simp
      · exact absurd h (by simp)

/-- The remainder returned by the score-tag matcher is a suffix. -/
theorem tryScoreTag_suffix (u : List Char) (b r : List Char)
    (h : tryScoreTag u = some (b, r)) : r <:+ u := by
  obtain ⟨x, hx⟩ := tryScoreTag_decomp u b r h
  rw [hx]
  exact (List.suffix_append x r).trans (List.suffix_cons '[' (x ++ r))

/-- Global removal only deletes characters. -/
theorem removeAllAux_sublist (f : List Char → Option (α × List Char))
    (hf : ∀ u (b : α) (r : List Char), f u = some (b, r) → r <:+ u) :
    ∀ (fuel : Nat) (s : List Char), List.Sublist (removeAllAux f fuel s) s := by
  intro fuel
  induction fuel with
  | zero =>
    intro s
    rw [removeAllAux]
  | succ n ih =>
    intro s
    rw [removeAllAux]
    cases hff : findFirst f s with
    | none => exact List.Sublist.refl s
    | some x =>
      obtain ⟨pre, b, r⟩ := x
      obtain ⟨mid, hm, -⟩ := findFirst_decompP f (fun _ => True)
        (fun u b r hh => by
          obtain ⟨m2, hm2⟩ := hf u b r hh
          exact ⟨m2, hm2.symm, trivial⟩) s pre b r hff
      rw [hm]
      exact ((ih r).trans (List.sublist_append_right mid r)).append_left pre

/-- A sublist of a string without a given character has none either. -/
theorem sublist_count_zero (a : Char) (l₁ l₂ : List Char)
    (h : List.Sublist l₁ l₂) (h0 : l₂.count a = 0) : l₁.count a = 0 := by
  have := h.count_le a
  omega

/-- Trimming only deletes characters. -/
theorem jsTrim_sublist (s : List Char) : List.Sublist (jsTrim s) s := by
  unfold jsTrim
  have h1 : List.Sublist (s.dropWhile isJsWs) s := (List.dropWhile_suffix _).sublist
  have h2 : List.Sublist ((s.dropWhile isJsWs).reverse.dropWhile isJsWs)
      (s.dropWhile isJsWs).reverse := (List.dropWhile_suffix _).sublist
  have h3 := h2.reverse
  rw [List.reverse_reverse] at h3
  exact h3.trans h1

/-- When the input holds exactly one `[`, removing all score tags (each of
which contains a `[`) leaves a string with no `[` at all. -/
theorem removeAll_score_count (s : List Char) (h1 : s.count '[' = 1)
    (hsome : (findFirst tryScoreTag s).isSome) :
    (removeAll tryScoreTag s).count '[' = 0 := by
  rw [Option.isSome_iff_exists] at hsome
  obtain ⟨⟨pre, ds, r⟩, hff⟩ := hsome
  obtain ⟨mid, hm, hp⟩ := findFirst_decompP tryScoreTag (fun m => '[' ∈ m)
    (fun u b rr hh => by
      obtain ⟨x, hx⟩ := tryScoreTag_decomp u b rr hh
      refine ⟨'[' :: x, ?_, by simp⟩
      rw [hx]
      rfl) s pre ds r hff
  have hcount : pre.count '[' + (mid.count '[' + r.count '[') = 1 := by
    rw [hm] at h1
    simpa [List.count_append] using h1
  have hmid : 0 < mid.count '[' := List.count_pos_iff.mpr hp
  have hpre : pre.count '[' = 0 := by omega
  have hr : r.count '[' = 0 := by omega
  unfold removeAll
  cases hl : s.length with
  | zero =>
    exfalso
    have hnil : s = [] := List.length_eq_zero.mp hl
    rw [hnil] at h1
    simp at h1
  | succ n =>
    rw [removeAllAux, hff, List.count_append]
    have hsub : List.Sublist (removeAllAux tryScoreTag n r) r :=
      removeAllAux_sublist tryScoreTag tryScoreTag_suffix n r
    have := hsub.count_le '['
    omega

/-- Without a `[` there is no score tag. -/
theorem no_lbracket_findFirst_score (s : List Char) (h : s.count '[' = 0) :
    findFirst tryScoreTag s = none := by
  apply findFirst_none_of
  intro i
  cases hf : tryScoreTag (s.drop i) with
  | none => rfl
  | some x =>
    exfalso
    obtain ⟨ds, r⟩ := x
    obtain ⟨y, hy⟩ := tryScoreTag_decomp _ ds r hf
    have hmem : '[' ∈ s.drop i := by rw [hy]; simp
    rw [List.count_eq_zero] at h
    exact h (List.mem_of_mem_drop hmem)

/-- Without a `[` there is no bracketed tag to remove. -/
theorem no_lbracket_findFirst_bracketRemove (lit' s : List Char)
    (h : s.count '[' = 0) :
    findFirst (tryBracketRemove ('[' :: lit')) s = none := by
  apply findFirst_none_of
  intro i
  cases hf : tryBracketRemove ('[' :: lit') (s.drop i) with
  | none => rfl
  | some x =>
    exfalso
    have hls := tryBracketRemove_litSome _ _ _ hf
    rw [Option.isSome_iff_exists] at hls
    obtain ⟨t, ht⟩ := hls
    obtain ⟨c, cs, hu, hci, -⟩ := dropCI_cons_head '[' lit' _ t ht
    have hc : c = '[' := ciEq_lbracket c hci
    have hmem : '[' ∈ s.drop i := by rw [hu, hc]; simp
    rw [List.count_eq_zero] at h
    exact h (List.mem_of_mem_drop hmem)

/-- Global removal only deletes characters (top-level form). -/
theorem removeAll_sublist (f : List Char → Option (α × List Char))
    (hf : ∀ u (b : α) (r : List Char), f u = some (b, r) → r <:+ u)
    (s : List Char) : List.Sublist (removeAll f s) s :=
  removeAllAux_sublist f hf s.length s

/-- A successful case-insensitive literal match at any position witnesses
the substring test. -/
theorem ciContains_of_dropCI (lit s : List Char) (i : Nat)
    (h : (dropCI lit (s.drop i)).isSome) : ciContains lit s = true := by
  rw [Option.isSome_iff_exists] at h
  obtain ⟨t, ht⟩ := h
  unfold ciContains
  exact findFirst_isSome_of (tryLit lit) s i ((), t) (by simp [tryLit, ht])

/-- A matcher that starts with a literal finds nothing in text lacking the
literal. -/
theorem findFirst_none_of_not_ciContains
    (f : List Char → Option (α × List Char)) (lit : List Char)
    (hf : ∀ u (x : α × List Char), f u = some x → (dropCI lit u).isSome)
    (s : List Char) (hs : ciContains lit s = false) : findFirst f s = none := by
  apply findFirst_none_of
  intro i
  cases hfi : f (s.drop i) with
  | none => rfl
  | some x =>
    exfalso
    have hc := ciContains_of_dropCI lit s i (hf _ _ hfi)
    rw [hs] at hc
    simp at hc

/-- A matcher that starts with a one-character-extended literal finds
nothing in text lacking the core literal. -/
theorem findFirst_none_of_not_ciContains_bracket
    (f : List Char → Option (α × List Char)) (c₀ : Char) (lit : List Char)
    (hf : ∀ u (x : α × List Char), f u = some x → (dropCI (c₀ :: lit) u).isSome)
    (s : List Char) (hs : ciContains lit s = false) : findFirst f s = none := by
  apply findFirst_none_of
  intro i
  cases hfi : f (s.drop i) with
  | none => rfl
  | some x =>
    exfalso
    have h1 := hf _ _ hfi
    rw [Option.isSome_iff_exists] at h1
    obtain ⟨t, ht⟩ := h1
    obtain ⟨c, cs, hu, -, hrest⟩ := dropCI_cons_head c₀ lit _ t ht
    have hcs : s.drop (i + 1) = cs := by
      have hstep : (s.drop i).drop 1 = cs := by rw [hu]; rfl
      rw [← hstep, List.drop_drop]
    have h2 : (dropCI lit (s.drop (i + 1))).isSome := by
      rw [hcs, hrest]
      rfl
    have hc := ciContains_of_dropCI lit s (i + 1) h2
    rw [hs] at hc
    simp at hc

/-- C3 amended: for a reply with no score tag and no CONCEPTS/FEEDBACK
control text at all, the parser returns a `null` score, the clean response
is exactly the trimmed raw reply, the concept-mastery map is unchanged,
and feeding the `null` score to the adaptive difficulty engine leaves the
difficulty state untouched.  (Without the CONCEPTS/FEEDBACK exclusion the
claim fails: a score-less reply carrying a `[CONCEPTS:...]` tag mutates
the mastery map and has the tag stripped from `cleanResponse`.) -/
theorem C3_no_tags_passthrough (m : Mastery) (qc : Nat) (topic : List Char)
    (scores : List Nat) (resp : List Char)
    (h1 : scoreValue resp = none)
    (hC : ciContains (("CONCEPTS:").data) resp = false)
    (hF : ciContains (("FEEDBACK:").data) resp = false) :
    (parseAndUpdateScore m qc topic scores resp).score = none ∧
    (parseAndUpdateScore m qc topic scores resp).cleanResponse = jsTrim resp ∧
    (parseAndUpdateScore m qc topic scores resp).conceptMastery = m ∧
    (∀ st : DiffState, updateDifficultyLevel none st = st) := by
  have hff1 : findFirst tryScoreTag resp = none := by
    unfold scoreValue at h1
    cases hf : findFirst tryScoreTag resp with
    | none => rfl
    | some x =>
      obtain ⟨a, b, c⟩ := x
      rw [hf] at h1
      simp at h1
  have hbC : (("[CONCEPTS:").data) = '[' :: (("CONCEPTS:").data) := rfl
  have hbF : (("[FEEDBACK:").data) = '[' :: (("FEEDBACK:").data) := rfl
  have hff2 : findFirst (tryBracketRemove (("[CONCEPTS:").data)) resp = none := by
    rw [hbC]
    exact findFirst_none_of_not_ciContains_bracket _ '[' _
      (fun u x hx => tryBracketRemove_litSome _ _ _ hx) resp hC
  have hff3 : findFirst (tryBracketRemove (("[FEEDBACK:").data)) resp = none := by
    rw [hbF]
    exact findFirst_none_of_not_ciContains_bracket _ '[' _
      (fun u x hx => tryBracketRemove_litSome _ _ _ hx) resp hF
  have hff4 : findFirst (tryFallbackTag (("CONCEPTS:").data) ['\n'] false) resp = none :=
    findFirst_none_of_not_ciContains _ _
      (fun u x hx => tryFallbackTag_litSome _ _ _ _ _ hx) resp hC
  have hff5 : findFirst (tryFallbackTag (("FEEDBACK:").data) ['\n'] false) resp = none :=
    findFirst_none_of_not_ciContains _ _
      (fun u x hx => tryFallbackTag_litSome _ _ _ _ _ hx) resp hF
  have hdet2 : findFirst (tryBracketTag (("[CONCEPTS:").data)) resp = none := by
    rw [hbC]
    exact findFirst_none_of_not_ciContains_bracket _ '[' _
      (fun u x hx => tryBracketTag_litSome _ _ _ hx) resp hC
  have hdet4 : findFirst (tryFallbackTag (("CONCEPTS:").data) ['\n', '['] true) resp = none :=
    findFirst_none_of_not_ciContains _ _
      (fun u x hx => tryFallbackTag_litSome _ _ _ _ _ hx) resp hC
  have hclean : cleanTags resp = jsTrim resp := by
    unfold cleanTags
    rw [removeAll_eq_of_none _ _ hff1, removeAll_eq_of_none _ _ hff2,
      removeAll_eq_of_none _ _ hff3, removeAll_eq_of_none _ _ hff4,
      removeAll_eq_of_none _ _ hff5]
  have hpay : conceptsPayload resp = none := by
    unfold conceptsPayload
    rw [hdet2, hdet4]
  refine ⟨?_, ?_, ?_, fun st => rfl⟩
  · exact (show (parseAndUpdateScore m qc topic scores resp).score =
      scoreValue resp from rfl).trans h1
  · have hcr : (parseAndUpdateScore m qc topic scores resp).cleanResponse =
        cleanTags resp := rfl
    rw [hcr, hclean]
  · show (parseAndUpdateScore m qc topic scores resp).conceptMastery = m
    simp only [parseAndUpdateScore, h1, hpay]

/-- Witness for the amended C3 at a concrete tag-free reply. -/
theorem C3_no_tags_passthrough_witness :
    (parseAndUpdateScore [] 2 (("T").data) []
      (("Nice try, think about gravity.").data)).score = none ∧
    (parseAndUpdateScore [] 2 (("T").data) []
      (("Nice try, think about gravity.").data)).cleanResponse =
      jsTrim (("Nice try, think about gravity.").data) ∧
    (parseAndUpdateScore [] 2 (("T").data) []
      (("Nice try, think about gravity.").data)).conceptMastery = [] ∧
    updateDifficultyLevel none ⟨Level.medium, 1, 0⟩ = ⟨Level.medium, 1, 0⟩ :=
  ⟨(C3_no_tags_passthrough [] 2 (("T").data) []
      (("Nice try, think about gravity.").data) (by decide) (by decide)
      (by decide)).1,
   (C3_no_tags_passthrough [] 2 (("T").data) []
      (("Nice try, think about gravity.").data) (by decide) (by decide)
      (by decide)).2.1,
   (C3_no_tags_passthrough [] 2 (("T").data) []
      (("Nice try, think about gravity.").data) (by decide) (by decide)
      (by decide)).2.2.1,
   (C3_no_tags_passthrough [] 2 (("T").data) []
      (("Nice try, think about gravity.").data) (by decide) (by decide)
      (by decide)).2.2.2 ⟨Level.medium, 1, 0⟩⟩

/-- C3 counterexample: the reply `[CONCEPTS:orbits=70]` contains no score
tag, yet its clean response is empty (not the trimmed raw reply, which is
the reply itself) and the concept-mastery map is mutated. -/
theorem C3_counterexample :
    scoreValue (("[CONCEPTS:orbits=70]").data) = none ∧
    (parseAndUpdateScore [] 1 (("T").data) []
      (("[CONCEPTS:orbits=70]").data)).cleanResponse = [] ∧
    jsTrim (("[CONCEPTS:orbits=70]").data) = ("[CONCEPTS:orbits=70]").data ∧
    (parseAndUpdateScore [] 1 (("T").data) []
      (("[CONCEPTS:orbits=70]").data)).conceptMastery =
      [((("orbits").data), ⟨70, MasteryStatus.high⟩)] := by
  decide

/-- C1 amended: when the first score tag of a reply parses to `v ≤ 100`,
the parser returns `score = v`; and when the reply contains exactly one
`[` (so that deleting tags cannot splice a new tag out of surrounding
text), the clean response contains no score tag.  (For arbitrary replies
the second part fails: removal can concatenate fragments into a fresh
`[SCORE:...]` tag.) -/
theorem C1_valid_score_tag (m : Mastery) (qc : Nat) (topic : List Char)
    (scores : List Nat) (resp : List Char) (v : Nat)
    (hv : scoreValue resp = some v) (h100 : v ≤ 100) :
    (parseAndUpdateScore m qc topic scores resp).score = some v ∧
    (resp.count '[' = 1 →
      scoreValue ((parseAndUpdateScore m qc topic scores resp).cleanResponse) =
        none) := by
  constructor
  · exact (show (parseAndUpdateScore m qc topic scores resp).score =
      scoreValue resp from rfl).trans hv
  · intro hcount
    have hclean : (parseAndUpdateScore m qc topic scores resp).cleanResponse =
        cleanTags resp := rfl
    rw [hclean]
    have hisome : (findFirst tryScoreTag resp).isSome := by
      unfold scoreValue at hv
      cases hf : findFirst tryScoreTag resp with
      | none => rw [hf] at hv; simp at hv
      | some x => simp
    have h1 : (removeAll tryScoreTag resp).count '[' = 0 :=
      removeAll_score_count resp hcount hisome
    have hbC : (("[CONCEPTS:").data) = '[' :: (("CONCEPTS:").data) := rfl
    have hbF : (("[FEEDBACK:").data) = '[' :: (("FEEDBACK:").data) := rfl
    have hff2 : findFirst (tryBracketRemove (("[CONCEPTS:").data))
        (removeAll tryScoreTag resp) = none := by
      rw [hbC]
      exact no_lbracket_findFirst_bracketRemove _ _ h1
    have hff3 : findFirst (tryBracketRemove (("[FEEDBACK:").data))
        (removeAll tryScoreTag resp) = none := by
      rw [hbF]
      exact no_lbracket_findFirst_bracketRemove _ _ h1
    have e2 : removeAll (tryBracketRemove (("[CONCEPTS:").data))
        (removeAll tryScoreTag resp) = removeAll tryScoreTag resp :=
      removeAll_eq_of_none _ _ hff2
    unfold cleanTags
    rw [e2]
    have e3 : removeAll (tryBracketRemove (("[FEEDBACK:").data))
        (removeAll tryScoreTag resp) = removeAll tryScoreTag resp :=
      removeAll_eq_of_none _ _ hff3
    rw [e3]
    have h4 : (removeAll (tryFallbackTag (("CONCEPTS:").data) ['\n'] false)
        (removeAll tryScoreTag resp)).count '[' = 0 :=
      sublist_count_zero '[' _ _
        (removeAll_sublist _
          (fun u b r hh => tryFallbackTag_suffix _ _ _ _ _ _ hh) _) h1
    have h5 : (removeAll (tryFallbackTag (("FEEDBACK:").data) ['\n'] false)
        (removeAll (tryFallbackTag (("CONCEPTS:").data) ['\n'] false)
          (removeAll tryScoreTag resp))).count '[' = 0 :=
      sublist_count_zero '[' _ _
        (removeAll_sublist _
          (fun u b r hh => tryFallbackTag_suffix _ _ _ _ _ _ hh) _) h4
    have h6 : (jsTrim (removeAll (tryFallbackTag (("FEEDBACK:").data) ['\n'] false)
        (removeAll (tryFallbackTag (("CONCEPTS:").data) ['\n'] false)
          (removeAll tryScoreTag resp)))).count '[' = 0 :=
      sublist_count_zero '[' _ _ (jsTrim_sublist _) h5
    unfold scoreValue
    rw [no_lbracket_findFirst_score _ h6]

/-- Witness for the amended C1 at a concrete reply with one score tag. -/
theorem C1_valid_score_tag_witness :
    (parseAndUpdateScore [] 1 (("T").data) []
      (("Good job! [SCORE: 85] keep going").data)).score = some 85 ∧
    scoreValue ((parseAndUpdateScore [] 1 (("T").data) []
      (("Good job! [SCORE: 85] keep going").data)).cleanResponse) = none :=
  ⟨(C1_valid_score_tag [] 1 (("T").data) []
      (("Good job! [SCORE: 85] keep going").data) 85 (by decide) (by decide)).1,
   (C1_valid_score_tag [] 1 (("T").data) []
      (("Good job! [SCORE: 85] keep going").data) 85 (by decide) (by decide)).2
     (by decide)⟩

/-- C1 counterexample: in `[SCO[SCORE:1]RE:2]` the first score tag is
valid (`v = 1`), but deleting it splices the surrounding text into the
fresh tag `[SCORE:2]`, so the clean response still contains a
`[SCORE:...]` tag. -/
theorem C1_counterexample :
    scoreValue (("[SCO[SCORE:1]RE:2]").data) = some 1 ∧
    (parseAndUpdateScore [] 1 (("T").data) []
      (("[SCO[SCORE:1]RE:2]").data)).score = some 1 ∧
    scoreValue ((parseAndUpdateScore [] 1 (("T").data) []
      (("[SCO[SCORE:1]RE:2]").data)).cleanResponse) = some 2 := by
  decide

/-- The truncation marker survives the leading trim: dropping leading
whitespace from text ending in the marker keeps the marker as a suffix
(the scan stops at `[` at the latest). -/
theorem core_suffix_dropWhile (x : List Char) :
    (("[...truncated]").data) <:+
      (x ++ ('\n' :: (("[...truncated]").data))).dropWhile isJsWs := by
  induction x with
  | nil =>
    rw [List.nil_append]
    have hstep : (('\n' :: (("[...truncated]").data))).dropWhile isJsWs =
        ("[...truncated]").data := by decide
    rw [hstep]
  | cons c x' ih =>
    by_cases hc : isJsWs c = true
    · rw [List.cons_append, List.dropWhile_cons, if_pos hc]
      exact ih
    · rw [List.cons_append, List.dropWhile_cons, if_neg (by simp [hc])]
      exact ((List.suffix_cons '\n' _).trans
        (List.suffix_append x' _)).trans (List.suffix_cons c _)

/-- The truncation marker survives the whole trim: it ends in `]`, so the
trailing trim removes nothing behind it. -/
theorem marker_suffix_jsTrim (x : List Char) :
    (("[...truncated]").data) <:+ jsTrim (x ++ truncationMarker) := by
  have hm : truncationMarker = '\n' :: (("[...truncated]").data) := rfl
  obtain ⟨z, hz⟩ := core_suffix_dropWhile x
  unfold jsTrim
  rw [hm, ← hz]
  have h1 : (z ++ (("[...truncated]").data)).reverse =
      ']' :: (((("[...truncated]").data).reverse.tail) ++ z.reverse) := by
    rw [List.reverse_append]
    have h2 : ((("[...truncated]").data)).reverse =
        ']' :: (((("[...truncated]").data)).reverse.tail) := by decide
    rw [h2]
    rfl
  rw [h1, List.dropWhile_cons, if_neg (by decide), ← h1, List.reverse_reverse]
  exact List.suffix_append z _

/-- C8 amended: combined curriculum text longer than 8000 characters is
cut to its first 8000 characters, the `\n[...truncated]` marker is
appended, and the result is trimmed — so the `[...truncated]` marker is a
suffix of what is returned, but the kept prefix is the trimmed first 8000
characters (the combined text always begins with a newline, so the prefix
the caller sees is shorter than 8000).  Combined text of at most 8000
characters is returned trimmed, with no marker appended
(src/app.js:80-84). -/
theorem C8_truncation (items : List CurriculumItem) (topicKey : List Char)
    (gradeLevel : Nat) :
    (8000 < (combineCurriculum items topicKey gradeLevel).length →
      fetchRelevantCurriculum items topicKey gradeLevel =
        jsTrim ((combineCurriculum items topicKey gradeLevel).take 8000 ++
          truncationMarker) ∧
      (("[...truncated]").data) <:+
        fetchRelevantCurriculum items topicKey gradeLevel) ∧
    ((combineCurriculum items topicKey gradeLevel).length ≤ 8000 →
      fetchRelevantCurriculum items topicKey gradeLevel =
        jsTrim (combineCurriculum items topicKey gradeLevel)) := by
  constructor
  · intro hbig
    have he : fetchRelevantCurriculum items topicKey gradeLevel =
        jsTrim ((combineCurriculum items topicKey gradeLevel).take 8000 ++
          truncationMarker) := by
      simp only [fetchRelevantCurriculum]
      rw [if_pos hbig]
    refine ⟨he, ?_⟩
    rw [he]
    exact marker_suffix_jsTrim _
  · intro hle
    simp only [fetchRelevantCurriculum]
    rw [if_neg (by omega)]

/-- The trailing trim removes nothing from text ending in the truncation
marker, because the marker ends in the non-whitespace `]`. -/
theorem jsTrim_no_tail_trim (y : List Char)
    (hy : (("[...truncated]").data) <:+ y) :
    (y.reverse.dropWhile isJsWs).reverse = y := by
  obtain ⟨z, hz⟩ := hy
  rw [← hz, List.reverse_append]
  have h2 : ((("[...truncated]").data)).reverse =
      ']' :: (((("[...truncated]").data)).reverse.tail) := by decide
  rw [h2, List.cons_append, List.dropWhile_cons, if_neg (by decide),
    ← List.cons_append, ← h2, ← List.reverse_append, List.reverse_reverse]

/-- Combined text of the single 8100-character item, in closed form. -/
theorem combine_longContentItem_eq :
    combineCurriculum [longContentItem] (("t").data) 6 =
      ("\n--- T ---\n").data ++ (List.replicate 8100 'a' ++ ("\n").data) := by
  unfold combineCurriculum
  rw [List.foldl_cons, List.foldl_nil, if_pos (by decide)]
  have hsmall : (((([] : List Char) ++ (("\n--- ").data)) ++ (("T").data)) ++
      ((" ---\n").data)) = ("\n--- T ---\n").data := by decide
  show (((((([] : List Char) ++ (("\n--- ").data)) ++ (("T").data)) ++
      ((" ---\n").data)) ++ List.replicate 8100 'a') ++ (("\n").data)) = _
  rw [hsmall, List.append_assoc]

/-- Its length: 11 header characters, 8100 content characters, 1 newline. -/
theorem combine_longContentItem_length :
    (combineCurriculum [longContentItem] (("t").data) 6).length = 8112 := by
  rw [combine_longContentItem_eq]
  have h11 : ((("\n--- T ---\n").data)).length = 11 := rfl
  have h1 : ((("\n").data)).length = 1 := rfl
  rw [List.length_append, List.length_append, h11, h1, List.length_replicate]

/-- Its first 8000 characters: the header plus 7989 content characters. -/
theorem combine_longContentItem_take :
    (combineCurriculum [longContentItem] (("t").data) 6).take 8000 =
      ("\n--- T ---\n").data ++ List.replicate 7989 'a' := by
  rw [combine_longContentItem_eq, List.take_append_eq_append_take]
  have h11 : ((("\n--- T ---\n").data)).length = 11 := rfl
  rw [List.take_of_length_le (by rw [h11]; omega), h11]
  norm_num
  rw [List.take_append_eq_append_take, List.take_replicate,
    List.length_replicate]
  norm_num

/-- What the fetcher actually returns for the single 8100-character item:
the header without its leading newline, 7989 content characters, and the
marker. -/
theorem fetch_longContentItem_eq :
    fetchRelevantCurriculum [longContentItem] (("t").data) 6 =
      ((("--- T ---\n").data ++ List.replicate 7989 'a') ++ truncationMarker) := by
  simp only [fetchRelevantCurriculum]
  rw [if_pos (by rw [combine_longContentItem_length]; omega),
    combine_longContentItem_take]
  unfold jsTrim
  have hfront : List.dropWhile isJsWs
      (((("\n--- T ---\n").data ++ List.replicate 7989 'a')) ++ truncationMarker) =
      (("--- T ---\n").data ++ List.replicate 7989 'a') ++ truncationMarker := by
    show List.dropWhile isJsWs
      ('\n' :: ((("--- T ---\n").data ++ List.replicate 7989 'a') ++ truncationMarker)) = _
    rw [List.dropWhile_cons, if_pos (by decide)]
    show List.dropWhile isJsWs
      ('-' :: ((("-- T ---\n").data ++ List.replicate 7989 'a') ++ truncationMarker)) = _
    rw [List.dropWhile_cons, if_neg (by decide)]
    rfl
  rw [hfront]
  apply jsTrim_no_tail_trim
  have hm : truncationMarker = '\n' :: (("[...truncated]").data) := rfl
  rw [hm]
  exact (List.suffix_cons '\n' _).trans
    (List.suffix_append (("--- T ---\n").data ++ List.replicate 7989 'a') _)

/-- Witness for the amended C8: the long item exercises the truncation
branch, the empty collection the pass-through branch. -/
theorem C8_truncation_witness :
    ((("[...truncated]").data) <:+
      fetchRelevantCurriculum [longContentItem] (("t").data) 6) ∧
    fetchRelevantCurriculum [] (("t").data) 6 =
      jsTrim (combineCurriculum [] (("t").data) 6) :=
  ⟨((C8_truncation [longContentItem] (("t").data) 6).1
      (by rw [combine_longContentItem_length]; omega)).2,
   (C8_truncation [] (("t").data) 6).2 (by decide)⟩

/-- C8 counterexample: one matching item with 8100 characters of content
gives combined text of 8112 characters, but the returned text is not the
first 8000 characters followed by the marker — the trailing `.trim()`
removes the leading newline of the header (the returned text starts with
`-`, the 8000-character prefix with a newline), under either reading of
"the marker". -/
theorem C8_counterexample :
    8000 < (combineCurriculum [longContentItem] (("t").data) 6).length ∧
    fetchRelevantCurriculum [longContentItem] (("t").data) 6 ≠
      (combineCurriculum [longContentItem] (("t").data) 6).take 8000 ++
        (("\n[...truncated]").data) ∧
    fetchRelevantCurriculum [longContentItem] (("t").data) 6 ≠
      (combineCurriculum [longContentItem] (("t").data) 6).take 8000 ++
        (("[...truncated]").data) := by
  refine ⟨by rw [combine_longContentItem_length]; omega, ?_, ?_⟩
  · intro hh
    rw [fetch_longContentItem_eq, combine_longContentItem_take] at hh
    have hhead := congrArg List.head? hh
    rw [show (((("--- T ---\n").data ++ List.replicate 7989 'a') ++
        truncationMarker)).head? = some '-' from rfl,
      show (((("\n--- T ---\n").data ++ List.replicate 7989 'a') ++
        (("\n[...truncated]").data))).head? = some '\n' from rfl] at hhead
    simp at hhead
  · intro hh
    rw [fetch_longContentItem_eq, combine_longContentItem_take] at hh
    have hhead := congrArg List.head? hh
    rw [show (((("--- T ---\n").data ++ List.replicate 7989 'a') ++
        truncationMarker)).head? = some '-' from rfl,
      show (((("\n--- T ---\n").data ++ List.replicate 7989 'a') ++
        (("[...truncated]").data))).head? = some '\n' from rfl] at hhead
    simp at hhead

/-- C9: when JSON extraction finds no braced block, or the extracted block
fails to parse, the summarizer returns the fixed fallback assessment; its
strengths, areas to improve, next steps and concept-mastery map are
non-empty lists and its overall summary is a non-empty string
(src/app.js:813-827). -/
theorem C9_summary_fallback (jsonParse : List Char → Option Assessment)
    (reply studentName topicName : List Char)
    (h : ∀ b, findJsonBlock reply = some b → jsonParse b = none) :
    generateSessionSummary jsonParse reply studentName topicName =
      fallbackAssessment studentName topicName ∧
    (fallbackAssessment studentName topicName).strengths ≠ [] ∧
    (fallbackAssessment studentName topicName).areasToImprove ≠ [] ∧
    (fallbackAssessment studentName topicName).nextSteps ≠ [] ∧
    (fallbackAssessment studentName topicName).conceptMastery ≠ [] ∧
    (fallbackAssessment studentName topicName).overallSummary ≠ [] := by
  refine ⟨?_, by simp [fallbackAssessment], by simp [fallbackAssessment],
    by simp [fallbackAssessment], by simp [fallbackAssessment], ?_⟩
  · unfold generateSessionSummary
    cases hb : findJsonBlock reply with
    | none => rfl
    | some b =>
      dsimp only
      rw [h b hb]
  · intro hh
    have hre : (fallbackAssessment studentName topicName).overallSummary =
        studentName ++ ((" participated in a tutoring session about ").data ++
          (topicName ++
            ((". Continue exploring this topic to build deeper understanding.").data))) := by
      simp [fallbackAssessment, List.append_assoc]
    rw [hre] at hh
    have hlen := congrArg List.length hh
    rw [List.length_append, List.length_append, List.length_append,
      List.length_nil] at hlen
    have hpos : 0 < ((" participated in a tutoring session about ").data).length := by
      decide
    omega

/-- Witness for C9: a reply with no braces, under a parser that always
fails. -/
theorem C9_summary_fallback_witness :
    generateSessionSummary (fun _ => none) (("no json here").data)
      (("Sam").data) (("Solar System").data) =
      fallbackAssessment (("Sam").data) (("Solar System").data) :=
  (C9_summary_fallback (fun _ => none) (("no json here").data) (("Sam").data)
    (("Solar System").data) (fun b hb => rfl)).1
